import Mathlib

/-!
# Verification of the archon_emotiv metrics service

A shallow embedding, in Lean 4, of the core of `src/python/app.py`:

* `flow_score` — the pure scoring function, embedded over `ℚ` (the Python
  source performs exact-looking arithmetic on values clamped to `[0,1]`;
  we model the numbers as rationals);
* the label resolver of `CortexClient.on_new_data_labels` — a Python dict
  comprehension, embedded as an association list with dict-style insertion
  (overwrite on key collision, first-match lookup);
* `CortexClient.on_new_met_data` — the value-frame handler updating the
  global `latest_metrics` dict;
* the `GET /metrics` handler `get_metrics`.

Theorems below state and settle the specified properties of these
functions.
-/

/-- `inverted_u_curve` from `app.py`: inverted-U curve centered at `0.5`,
`-4 * (x - 0.5)^2 + 1`. -/
def inverted_u_curve (x : ℚ) : ℚ := -4 * (x - 0.5) ^ 2 + 1

/-- The input normalization used six times inside `flow_score`:
`max(0, min(1, x))`. -/
def clamp01 (x : ℚ) : ℚ := max 0 (min 1 x)

/-- `flow_score` from `app.py`: clamp each of the six inputs to `[0,1]`,
take the weighted sum of the per-metric contributions (inverted-U for
stress, excitement and relaxation; linear for engagement, interest and
attention), and clamp the total to `[0,1]`. -/
def flow_score (stress engagement interest excitement attention relaxation : ℚ) : ℚ :=
  max 0 (min 1 (
    inverted_u_curve (clamp01 stress) * 0.15 +
    inverted_u_curve (clamp01 excitement) * 0.15 +
    clamp01 engagement * 0.20 +
    clamp01 interest * 0.15 +
    clamp01 attention * 0.25 +
    inverted_u_curve (clamp01 relaxation) * 0.10))

/-- Does `hay` start with `needle` (character lists)? -/
def startsWithChars : List Char → List Char → Bool
  | [], _ => true
  | _ :: _, [] => false
  | a :: as, b :: bs => a == b && startsWithChars as bs

/-- Does `needle` occur as a contiguous run inside the character list? -/
def containsChars (needle : List Char) : List Char → Bool
  | [] => startsWithChars needle []
  | c :: rest => startsWithChars needle (c :: rest) || containsChars needle rest

/-- Python's substring test `needle in hay` on strings
(used in `app.py` as `'isActive' not in label`). -/
def strContains (hay needle : String) : Bool := containsChars needle.toList hay.toList

/-- Python `dict` assignment `d[k] = v` on an insertion-ordered association
list: overwrite the binding in place when the key is present, append a new
binding otherwise. -/
def dictInsert {α : Type} : List (String × α) → String → α → List (String × α)
  | [], k, v => [(k, v)]
  | p :: rest, k, v => if p.1 = k then (k, v) :: rest else p :: dictInsert rest k v

/-- Python `dict` lookup `d.get(k)`: the binding of `k` (first match; the
insertion discipline above keeps keys unique). -/
def dictLookup {α : Type} : List (String × α) → String → Option α
  | [], _ => none
  | p :: rest, k => if p.1 = k then some p.2 else dictLookup rest k

/-- Python `d.update(u)`: assign every binding of `u` into `d`, in order. -/
def dictUpdate {α : Type} (d u : List (String × α)) : List (String × α) :=
  u.foldl (fun acc p => dictInsert acc p.1 p.2) d

/-- The dict comprehension of `CortexClient.on_new_data_labels` in `app.py`:
`{label: i for i, label in enumerate(labels) if 'isActive' not in label}`. -/
def metricIndexOfLabels (labels : List String) : List (String × Nat) :=
  labels.enum.foldl
    (fun d p => if strContains p.2 "isActive" then d else dictInsert d p.2 p.1) []

/-- The mutable state of `app.py` touched by the two stream callbacks:
`self.metric_indices` and the global `latest_metrics`. -/
structure ClientState where
  metric_indices : List (String × Nat)
  latest_metrics : List (String × ℚ)

/-- `CortexClient.on_new_data_labels` from `app.py`: on a label-set event,
if the stream is `"met"`, replace `metric_indices` with the filtered
label-to-position mapping; otherwise leave the state unchanged. -/
def on_new_data_labels (st : ClientState) (streamName : String) (labels : List String) :
    ClientState :=
  if streamName = "met" then { st with metric_indices := metricIndexOfLabels labels } else st

/-- The `new_metrics` dict built by the loop of `CortexClient.on_new_met_data`
in `app.py`: for each resolved `(label, index)` pair, take `met[index]` when
the frame is long enough (`if len(data['met']) > index`). -/
def newMetricsOf (metric_indices : List (String × Nat)) (met : List ℚ) :
    List (String × ℚ) :=
  metric_indices.foldl
    (fun d p => if h : p.2 < met.length then dictInsert d p.1 (met.get ⟨p.2, h⟩) else d) []

/-- `CortexClient.on_new_met_data` from `app.py`, acting on the global
`latest_metrics`: return unchanged if `metric_indices` is empty; otherwise
build `new_metrics` from the in-bounds positions of the frame and, if it is
non-empty, apply `latest_metrics.update(new_metrics)`. -/
def on_new_met_data (metric_indices : List (String × Nat)) (met : List ℚ)
    (latest_metrics : List (String × ℚ)) : List (String × ℚ) :=
  if metric_indices.isEmpty then latest_metrics
  else
    let new_metrics := newMetricsOf metric_indices met
    if new_metrics.isEmpty then latest_metrics else dictUpdate latest_metrics new_metrics

/-- `CortexClient.on_new_met_data` lifted to the full client state (the
handler reads `self.metric_indices` and writes only `latest_metrics`). -/
def on_new_met_data_state (st : ClientState) (met : List ℚ) : ClientState :=
  { st with latest_metrics := on_new_met_data st.metric_indices met st.latest_metrics }

/-- Modelled from the spec: the event dispatch of the external streaming
collaborator (the `cortex` module, not part of `src/`), which delivers a
value-frame to the bound `new_met_data` handler only for the stream named
`"met"`; a value-frame for any other stream name has no handler bound here
and is silently ignored with no state change (spec §4.1, §7 UnknownStream). -/
def dispatch_value_frame (st : ClientState) (streamName : String) (values : List ℚ) :
    ClientState :=
  if streamName = "met" then on_new_met_data_state st values else st

/-- An HTTP response at the `/metrics` boundary: status code and the JSON
object body (a mapping from metric name to numeric value). -/
structure HttpResponse where
  status : Nat
  body : List (String × ℚ)

/-- `get_metrics` from `app.py`: copy `latest_metrics` under the lock and
return it serialized with `jsonify`. Modelled from the spec for the status
line only: the framework (Flask) answers a successful `jsonify` handler
with HTTP 200 (spec §6: "HTTP 200 always"). -/
def get_metrics (latest_metrics : List (String × ℚ)) : HttpResponse :=
  { status := 200, body := latest_metrics }

/-- The keys of an association-list dict, in order. -/
def dictKeys {α : Type} (d : List (String × α)) : List String := d.map Prod.fst

/-- The value of the last binding of a key in a (possibly key-duplicating)
association list; used to describe `dictUpdate`. -/
def lastVal {α : Type} : List (String × α) → String → Option α
  | [], _ => none
  | p :: rest, k =>
      match lastVal rest k with
      | some v => some v
      | none => if p.1 = k then some p.2 else none

/-- The position of the last occurrence of a string in a list, if any. -/
def lastIdx : List String → String → Option Nat
  | [], _ => none
  | s :: rest, l =>
      match lastIdx rest l with
      | some j => some (j + 1)
      | none => if s = l then some 0 else none

/-- Thread identifiers for the concurrency model of `app.py`: the single
stream-consumer writer thread and the HTTP reader contexts. -/
inductive Tid where
  | writer
  | reader (n : Nat)

/-- One micro-operation of the writer thread: the guarded
`latest_metrics.update(new_metrics)` of `on_new_met_data` is modelled as
acquiring `metrics_lock`, writing the bindings one at a time, and
releasing. -/
inductive MicroOp where
  | acquire
  | write (k : String) (v : ℚ)
  | release

/-- The phases of one reader (`get_metrics`) context: it acquires the lock,
copies the snapshot (`latest_metrics.copy()`), and releases. -/
inductive ReaderPhase where
  | ready
  | locked
  | copied (obs : List (String × ℚ))
  | done (obs : List (String × ℚ))

/-- A configuration of the concurrent system: the shared snapshot and lock
(`latest_metrics`, `metrics_lock`), the writer's remaining micro-operations,
and the per-reader phases. -/
structure SysConfig where
  snap : List (String × ℚ)
  lock : Option Tid
  prog : List MicroOp
  readers : List ReaderPhase

/-- The writer's micro-operation sequence for a list of merges, each merge
being one `new_metrics` dict applied under the lock. -/
def writerProgOf (ms : List (List (String × ℚ))) : List MicroOp :=
  ms.flatMap (fun u =>
    MicroOp.acquire :: (u.map (fun p => MicroOp.write p.1 p.2) ++ [MicroOp.release]))

/-- Interleaving semantics: one micro-step of either the writer or one
reader, with mutual exclusion through `metrics_lock`. -/
inductive LockStep : SysConfig → SysConfig → Prop
  | writerAcquire {c : SysConfig} {rest : List MicroOp} :
      c.lock = none → c.prog = MicroOp.acquire :: rest →
      LockStep c { c with lock := some Tid.writer, prog := rest }
  | writerWrite {c : SysConfig} {k : String} {v : ℚ} {rest : List MicroOp} :
      c.lock = some Tid.writer → c.prog = MicroOp.write k v :: rest →
      LockStep c { c with snap := dictInsert c.snap k v, prog := rest }
  | writerRelease {c : SysConfig} {rest : List MicroOp} :
      c.lock = some Tid.writer → c.prog = MicroOp.release :: rest →
      LockStep c { c with lock := none, prog := rest }
  | readerAcquire {c : SysConfig} (n : Nat) :
      c.lock = none → c.readers[n]? = some ReaderPhase.ready →
      LockStep c { c with lock := some (Tid.reader n),
                          readers := c.readers.set n ReaderPhase.locked }
  | readerCopy {c : SysConfig} (n : Nat) :
      c.lock = some (Tid.reader n) → c.readers[n]? = some ReaderPhase.locked →
      LockStep c { c with readers := c.readers.set n (ReaderPhase.copied c.snap) }
  | readerRelease {c : SysConfig} (n : Nat) {obs : List (String × ℚ)} :
      c.lock = some (Tid.reader n) → c.readers[n]? = some (ReaderPhase.copied obs) →
      LockStep c { c with lock := none,
                          readers := c.readers.set n (ReaderPhase.done obs) }

/-- The initial configuration: snapshot `snap0`, lock free, the writer about
to perform the merges `ms`, and `nReaders` readers about to run
`get_metrics`. -/
def initConfig (snap0 : List (String × ℚ)) (ms : List (List (String × ℚ)))
    (nReaders : Nat) : SysConfig :=
  { snap := snap0, lock := none, prog := writerProgOf ms,
    readers := List.replicate nReaders ReaderPhase.ready }

/-- Applying a sequence of merges, each in its entirety, to a snapshot. -/
def applyMerges (snap0 : List (String × ℚ)) (ms : List (List (String × ℚ))) :
    List (String × ℚ) :=
  ms.foldl dictUpdate snap0

/-- An observation corresponding to some prefix of the merges applied in
full — never a mix of values from two different merges. -/
def BoundaryObs (snap0 : List (String × ℚ)) (ms : List (List (String × ℚ)))
    (obs : List (String × ℚ)) : Prop :=
  ∃ k, k ≤ ms.length ∧ obs = applyMerges snap0 (ms.take k)

/-- Inductive invariant of the interleaving semantics: the writer is either
at a merge boundary (snapshot = some prefix of the merges applied in full)
or holds the lock mid-merge, and every snapshot copied by a reader was a
boundary snapshot. -/
def SysInv (snap0 : List (String × ℚ)) (ms : List (List (String × ℚ)))
    (c : SysConfig) : Prop :=
  ((∃ k, k ≤ ms.length ∧ c.prog = writerProgOf (ms.drop k) ∧
      c.snap = applyMerges snap0 (ms.take k))
    ∨ (c.lock = some Tid.writer ∧
        ∃ k u1 u2, ms[k]? = some (u1 ++ u2) ∧
          c.prog = u2.map (fun p => MicroOp.write p.1 p.2) ++
            MicroOp.release :: writerProgOf (ms.drop (k + 1)) ∧
          c.snap = dictUpdate (applyMerges snap0 (ms.take k)) u1))
  ∧ ∀ (n : Nat) (obs : List (String × ℚ)),
      (c.readers[n]? = some (ReaderPhase.copied obs) ∨
        c.readers[n]? = some (ReaderPhase.done obs)) →
      BoundaryObs snap0 ms obs

lemma clamp01_nonneg (x : ℚ) : 0 ≤ clamp01 x := le_max_left 0 _

lemma clamp01_le_one (x : ℚ) : clamp01 x ≤ 1 :=
  max_le zero_le_one (min_le_left 1 x)

lemma clamp01_of_mem {x : ℚ} (h0 : 0 ≤ x) (h1 : x ≤ 1) : clamp01 x = x := by
  unfold clamp01
  rw [min_eq_right h1, max_eq_right h0]

lemma clamp01_idem (x : ℚ) : clamp01 (clamp01 x) = clamp01 x :=
  clamp01_of_mem (clamp01_nonneg x) (clamp01_le_one x)

/-- **C1.** For every six inputs each in `[0,1]`,
`flow_score stress engagement interest excitement attention relaxation`
returns a value in `[0,1]`. -/
theorem c1_flow_score_range (stress engagement interest excitement attention relaxation : ℚ)
    (hs : 0 ≤ stress ∧ stress ≤ 1) (he : 0 ≤ engagement ∧ engagement ≤ 1)
    (hi : 0 ≤ interest ∧ interest ≤ 1) (hx : 0 ≤ excitement ∧ excitement ≤ 1)
    (ha : 0 ≤ attention ∧ attention ≤ 1) (hr : 0 ≤ relaxation ∧ relaxation ≤ 1) :
    0 ≤ flow_score stress engagement interest excitement attention relaxation ∧
      flow_score stress engagement interest excitement attention relaxation ≤ 1 := by
  unfold flow_score
  exact ⟨le_max_left 0 _, max_le zero_le_one (min_le_left 1 _)⟩

/-- Witness for C1 at the all-`1/2` input. -/
theorem c1_flow_score_range_witness :
    0 ≤ flow_score 0.5 0.5 0.5 0.5 0.5 0.5 ∧ flow_score 0.5 0.5 0.5 0.5 0.5 0.5 ≤ 1 :=
  c1_flow_score_range 0.5 0.5 0.5 0.5 0.5 0.5
    ⟨by norm_num, by norm_num⟩ ⟨by norm_num, by norm_num⟩ ⟨by norm_num, by norm_num⟩
    ⟨by norm_num, by norm_num⟩ ⟨by norm_num, by norm_num⟩ ⟨by norm_num, by norm_num⟩

/-- **C2.** `flow_score 0.5 1 1 0.5 1 0.5` equals exactly `1`, and `1` is the
maximum value `flow_score` attains over all inputs. -/
theorem c2_flow_score_max :
    flow_score 0.5 1 1 0.5 1 0.5 = 1 ∧
      ∀ stress engagement interest excitement attention relaxation : ℚ,
        flow_score stress engagement interest excitement attention relaxation ≤ 1 := by
  constructor
  · norm_num [flow_score, clamp01, inverted_u_curve]
  · intro stress engagement interest excitement attention relaxation
    unfold flow_score
    exact max_le zero_le_one (min_le_left 1 _)

/-- **C3.** For every six inputs (including values outside `[0,1]`),
`flow_score` applied to the raw inputs equals `flow_score` applied to the
inputs after each is independently clamped to `[0,1]`. -/
theorem c3_flow_score_clamp_equiv
    (stress engagement interest excitement attention relaxation : ℚ) :
    flow_score stress engagement interest excitement attention relaxation =
      flow_score (clamp01 stress) (clamp01 engagement) (clamp01 interest)
        (clamp01 excitement) (clamp01 attention) (clamp01 relaxation) := by
  unfold flow_score
  rw [clamp01_idem, clamp01_idem, clamp01_idem, clamp01_idem, clamp01_idem, clamp01_idem]

lemma dictLookup_insert {α : Type} (d : List (String × α)) (k k' : String) (v : α) :
    dictLookup (dictInsert d k v) k' = if k' = k then some v else dictLookup d k' := by
  induction d with
  | nil =>
      by_cases h : k' = k
      · simp [dictInsert, dictLookup, h]
      · simp [dictInsert, dictLookup, h, Ne.symm h]
  | cons p rest ih =>
      by_cases hpk : p.1 = k
      · by_cases hk : k' = k
        · simp [dictInsert, dictLookup, hpk, hk]
        · simp [dictInsert, dictLookup, hpk, hk, Ne.symm hk]
      · by_cases hpk' : p.1 = k'
        · have hk : ¬ k' = k := fun h => hpk (hpk'.trans h)
          simp [dictInsert, dictLookup, hpk, hpk', hk]
        · simp [dictInsert, dictLookup, hpk, hpk', ih]

lemma mem_dictKeys_insert {α : Type} (d : List (String × α)) (k a : String) (v : α) :
    a ∈ dictKeys (dictInsert d k v) ↔ a ∈ dictKeys d ∨ a = k := by
  induction d with
  | nil => simp [dictInsert, dictKeys]
  | cons p rest ih =>
      by_cases hpk : p.1 = k
      · simp [dictInsert, dictKeys, hpk]
        tauto
      · simp [dictInsert, dictKeys, hpk] at ih ⊢
        tauto

lemma dictKeys_cons {α : Type} (p : String × α) (rest : List (String × α)) :
    dictKeys (p :: rest) = p.1 :: dictKeys rest := rfl

lemma dictKeys_nodup_insert {α : Type} {d : List (String × α)} (k : String) (v : α)
    (hd : (dictKeys d).Nodup) : (dictKeys (dictInsert d k v)).Nodup := by
  induction d with
  | nil => simp [dictInsert, dictKeys]
  | cons p rest ih =>
      rw [dictKeys_cons, List.nodup_cons] at hd
      obtain ⟨hp, hrest⟩ := hd
      simp only [dictInsert]
      by_cases hpk : p.1 = k
      · rw [if_pos hpk, dictKeys_cons, List.nodup_cons]
        exact ⟨hpk ▸ hp, hrest⟩
      · rw [if_neg hpk, dictKeys_cons, List.nodup_cons]
        refine ⟨?_, ih hrest⟩
        rw [mem_dictKeys_insert]
        rintro (h | h)
        · exact hp h
        · exact hpk h

lemma lastVal_of_not_mem {α : Type} {u : List (String × α)} {k : String}
    (h : k ∉ dictKeys u) : lastVal u k = none := by
  induction u with
  | nil => rfl
  | cons p rest ih =>
      simp [dictKeys] at h
      simp [lastVal, ih (by simpa [dictKeys] using h.2), Ne.symm h.1]

lemma dictLookup_of_not_mem {α : Type} {u : List (String × α)} {k : String}
    (h : k ∉ dictKeys u) : dictLookup u k = none := by
  induction u with
  | nil => rfl
  | cons p rest ih =>
      simp [dictKeys] at h
      simp [dictLookup, ih (by simpa [dictKeys] using h.2), Ne.symm h.1]

lemma lastVal_eq_dictLookup {α : Type} {u : List (String × α)}
    (hu : (dictKeys u).Nodup) (k : String) : lastVal u k = dictLookup u k := by
  induction u with
  | nil => rfl
  | cons p rest ih =>
      rw [dictKeys_cons, List.nodup_cons] at hu
      obtain ⟨hp, hrest⟩ := hu
      by_cases hpk : p.1 = k
      · have hk : k ∉ dictKeys rest := hpk ▸ hp
        simp [lastVal, dictLookup, hpk, lastVal_of_not_mem hk]
      · have h2 := ih hrest
        cases h3 : dictLookup rest k with
        | some v => simp [lastVal, dictLookup, hpk, h2, h3]
        | none => simp [lastVal, dictLookup, hpk, h2, h3]

lemma dictUpdate_cons {α : Type} (d : List (String × α)) (p : String × α)
    (u : List (String × α)) :
    dictUpdate d (p :: u) = dictUpdate (dictInsert d p.1 p.2) u := rfl

lemma dictLookup_update {α : Type} (d u : List (String × α)) (k : String) :
    dictLookup (dictUpdate d u) k =
      match lastVal u k with
      | some v => some v
      | none => dictLookup d k := by
  induction u generalizing d with
  | nil => rfl
  | cons p rest ih =>
      rw [dictUpdate_cons, ih]
      cases hl : lastVal rest k with
      | some v => simp [lastVal, hl]
      | none =>
          by_cases hpk : p.1 = k
          · simp [lastVal, hl, hpk, dictLookup_insert]
          · simp [lastVal, hl, hpk, dictLookup_insert, Ne.symm hpk]

lemma dictLookup_foldFrame (met : List ℚ) (l : String) :
    ∀ (mi : List (String × Nat)), (dictKeys mi).Nodup →
      ∀ acc : List (String × ℚ),
        dictLookup (mi.foldl (fun d p =>
            if h : p.2 < met.length then dictInsert d p.1 (met.get ⟨p.2, h⟩) else d) acc) l =
          match dictLookup mi l with
          | some idx =>
              match met[idx]? with
              | some v => some v
              | none => dictLookup acc l
          | none => dictLookup acc l := by
  intro mi
  induction mi with
  | nil =>
      intro _ acc
      rfl
  | cons p rest ih =>
      intro hmi acc
      rw [dictKeys_cons, List.nodup_cons] at hmi
      obtain ⟨hp, hrest⟩ := hmi
      rw [List.foldl_cons, ih hrest]
      by_cases hpl : p.1 = l
      · have hl : l ∉ dictKeys rest := hpl ▸ hp
        rw [dictLookup_of_not_mem hl]
        by_cases hb : p.2 < met.length
        · simp [hb, dictLookup_insert, dictLookup, hpl,
            List.getElem?_eq_getElem hb, List.get_eq_getElem]
        · simp [hb, dictLookup, hpl, List.getElem?_eq_none (Nat.le_of_not_lt hb)]
      · have hstep : dictLookup
            (if h : p.2 < met.length then dictInsert acc p.1 (met.get ⟨p.2, h⟩) else acc) l =
            dictLookup acc l := by
          by_cases hb : p.2 < met.length
          · simp [hb, dictLookup_insert, Ne.symm hpl]
          · simp [hb]
        rw [hstep]
        simp [dictLookup, hpl]

lemma dictLookup_newMetricsOf (mi : List (String × Nat)) (met : List ℚ) (l : String)
    (hmi : (dictKeys mi).Nodup) :
    dictLookup (newMetricsOf mi met) l =
      match dictLookup mi l with
      | some idx => met[idx]?
      | none => none := by
  have h : dictLookup (newMetricsOf mi met) l =
      match dictLookup mi l with
      | some idx =>
          match met[idx]? with
          | some v => some v
          | none => dictLookup ([] : List (String × ℚ)) l
      | none => dictLookup ([] : List (String × ℚ)) l :=
    dictLookup_foldFrame met l mi hmi []
  rw [h]
  cases dictLookup mi l with
  | some idx =>
      show (match met[idx]? with
          | some v => some v
          | none => dictLookup ([] : List (String × ℚ)) l) = met[idx]?
      cases met[idx]? <;> rfl
  | none => rfl

lemma newMetricsOf_keys_nodup (mi : List (String × Nat)) (met : List ℚ) :
    (dictKeys (newMetricsOf mi met)).Nodup := by
  have haux : ∀ (mi : List (String × Nat)) (acc : List (String × ℚ)),
      (dictKeys acc).Nodup →
      (dictKeys (mi.foldl (fun d p =>
          if h : p.2 < met.length then dictInsert d p.1 (met.get ⟨p.2, h⟩) else d) acc)).Nodup := by
    intro mi
    induction mi with
    | nil => intro acc h; exact h
    | cons p rest ih =>
        intro acc h
        rw [List.foldl_cons]
        by_cases hb : p.2 < met.length
        · exact ih _ (by simpa [hb] using dictKeys_nodup_insert p.1 (met.get ⟨p.2, hb⟩) h)
        · simpa [hb] using ih _ h
  exact haux mi [] (by simp [dictKeys])

lemma metricIndex_fold_lookup (l : String) (hl : strContains l "isActive" = false) :
    ∀ (labels : List String) (n : Nat) (acc : List (String × Nat)),
      dictLookup ((List.enumFrom n labels).foldl
          (fun d p => if strContains p.2 "isActive" then d else dictInsert d p.2 p.1) acc) l =
        match lastIdx labels l with
        | some j => some (n + j)
        | none => dictLookup acc l := by
  intro labels
  induction labels with
  | nil => intro n acc; rfl
  | cons s rest ih =>
      intro n acc
      rw [List.enumFrom, List.foldl_cons, ih (n + 1)]
      cases hj : lastIdx rest l with
      | some j => simp [lastIdx, hj]; omega
      | none =>
          by_cases hsl : s = l
          · simp [lastIdx, hj, hsl, hl, dictLookup_insert]
          · cases hadm : strContains s "isActive" with
            | true => simp [lastIdx, hj, hsl, hadm]
            | false => simp [lastIdx, hj, hsl, hadm, dictLookup_insert, Ne.symm hsl]

lemma lastIdx_of_not_mem {labels : List String} {l : String} (h : l ∉ labels) :
    lastIdx labels l = none := by
  induction labels with
  | nil => rfl
  | cons s rest ih =>
      simp at h
      simp [lastIdx, ih h.2, Ne.symm h.1]

lemma lastIdx_get_of_nodup :
    ∀ (labels : List String), labels.Nodup → ∀ i, ∀ hi : i < labels.length,
      lastIdx labels (labels.get ⟨i, hi⟩) = some i := by
  intro labels
  induction labels with
  | nil => intro _ i hi; exact absurd hi (by simp)
  | cons s rest ih =>
      intro hn i hi
      rcases List.nodup_cons.mp hn with ⟨hs, hrest⟩
      cases i with
      | zero => simp [List.get, lastIdx, lastIdx_of_not_mem hs]
      | succ j =>
          have hj : j < rest.length := by simpa using hi
          have hh := ih hrest j hj
          rw [List.get_eq_getElem] at hh
          simp [lastIdx, List.get_eq_getElem, List.getElem_cons_succ, hh]

lemma metricIndex_lookup_admin (l : String) (hl : strContains l "isActive" = true) :
    ∀ (labels : List String) (n : Nat) (acc : List (String × Nat)),
      dictLookup acc l = none →
      dictLookup ((List.enumFrom n labels).foldl
          (fun d p => if strContains p.2 "isActive" then d else dictInsert d p.2 p.1) acc) l
        = none := by
  intro labels
  induction labels with
  | nil => intro n acc h; exact h
  | cons s rest ih =>
      intro n acc h
      rw [List.enumFrom, List.foldl_cons]
      apply ih (n + 1)
      cases hadm : strContains s "isActive" with
      | true => simpa [hadm] using h
      | false =>
          have hsl : l ≠ s := by
            intro he
            rw [← he, hl] at hadm
            exact Bool.noConfusion hadm
          simpa [hadm, dictLookup_insert, hsl] using h

lemma on_new_met_data_of_empty_index {mi : List (String × Nat)} (met : List ℚ)
    (latest : List (String × ℚ)) (h : mi.isEmpty = true) :
    on_new_met_data mi met latest = latest := by
  unfold on_new_met_data
  rw [h]
  simp

lemma on_new_met_data_of_empty_new {mi : List (String × Nat)} {met : List ℚ}
    (latest : List (String × ℚ)) (hne : (newMetricsOf mi met).isEmpty = true) :
    on_new_met_data mi met latest = latest := by
  unfold on_new_met_data
  show (if mi.isEmpty = true then latest
    else if (newMetricsOf mi met).isEmpty = true then latest
    else dictUpdate latest (newMetricsOf mi met)) = latest
  rw [hne]
  simp

lemma on_new_met_data_eq_update {mi : List (String × Nat)} {met : List ℚ}
    (latest : List (String × ℚ)) (hmi_ne : mi.isEmpty = false)
    (hne : (newMetricsOf mi met).isEmpty = false) :
    on_new_met_data mi met latest = dictUpdate latest (newMetricsOf mi met) := by
  unfold on_new_met_data
  show (if mi.isEmpty = true then latest
    else if (newMetricsOf mi met).isEmpty = true then latest
    else dictUpdate latest (newMetricsOf mi met)) = dictUpdate latest (newMetricsOf mi met)
  rw [hmi_ne, hne]
  simp

/-- **C4 (counterexample).** The claim fails as stated when the same
non-administrative label occurs at two positions: with labels
`["foc", "foc"]` for the "met" stream, the label at position 0 is not mapped
to its original position 0. -/
theorem c4_label_resolver_counterexample :
    strContains "foc" "isActive" = false ∧
      dictLookup (metricIndexOfLabels ["foc", "foc"]) "foc" ≠ some 0 := by
  decide

/-- **C4 (amended).** For every "met" label-set with pairwise-distinct
labels, the resolver includes each label at its original position unless the
label textually contains the administrative marker substring, in which case
it is excluded; in particular `["foc", "eng", "isActive/foc", "str"]`
resolves to exactly `{"foc": 0, "eng": 1, "str": 3}`. -/
theorem c4_label_resolver (labels : List String) (hn : labels.Nodup) (i : Nat)
    (hi : i < labels.length) :
    (strContains (labels.get ⟨i, hi⟩) "isActive" = false →
      dictLookup (metricIndexOfLabels labels) (labels.get ⟨i, hi⟩) = some i) ∧
    (strContains (labels.get ⟨i, hi⟩) "isActive" = true →
      dictLookup (metricIndexOfLabels labels) (labels.get ⟨i, hi⟩) = none) ∧
    metricIndexOfLabels ["foc", "eng", "isActive/foc", "str"] =
      [("foc", 0), ("eng", 1), ("str", 3)] := by
  refine ⟨?_, ?_, by decide⟩
  · intro hadm
    have h := metricIndex_fold_lookup (labels.get ⟨i, hi⟩) hadm labels 0 []
    rw [lastIdx_get_of_nodup labels hn i hi] at h
    have h2 : dictLookup (metricIndexOfLabels labels) (labels.get ⟨i, hi⟩) = some (0 + i) := h
    simpa using h2
  · intro hadm
    exact metricIndex_lookup_admin (labels.get ⟨i, hi⟩) hadm labels 0 [] rfl

/-- Witness for C4 at the two-label list `["foc", "eng"]`. -/
theorem c4_label_resolver_witness :
    (["foc", "eng"] : List String).Nodup ∧
      dictLookup (metricIndexOfLabels ["foc", "eng"]) "foc" = some 0 :=
  ⟨by decide, (c4_label_resolver ["foc", "eng"] (by decide) 0 (by decide)).1 (by decide)⟩

/-- **C10.** For every "met" label-set, a non-administrative label is
resolved to the position of its last occurrence in the label-set (so a label
occurring at several positions gets the last one). -/
theorem c10_duplicate_label_last_occurrence (labels : List String) (l : String)
    (hl : strContains l "isActive" = false) :
    dictLookup (metricIndexOfLabels labels) l = lastIdx labels l := by
  have h := metricIndex_fold_lookup l hl labels 0 []
  cases hj : lastIdx labels l with
  | some j =>
      rw [hj] at h
      have h2 : dictLookup (metricIndexOfLabels labels) l = some (0 + j) := h
      simpa using h2
  | none =>
      rw [hj] at h
      exact h

/-- Witness for C10 at the duplicated label list `["foc", "eng", "foc"]`. -/
theorem c10_duplicate_label_last_occurrence_witness :
    strContains "foc" "isActive" = false ∧
      dictLookup (metricIndexOfLabels ["foc", "eng", "foc"]) "foc" =
        lastIdx ["foc", "eng", "foc"] "foc" ∧
      lastIdx ["foc", "eng", "foc"] "foc" = some 2 :=
  ⟨by decide, c10_duplicate_label_last_occurrence ["foc", "eng", "foc"] "foc" (by decide),
    by decide⟩

/-- **C5.** Processing a value-frame updates in the snapshot exactly the
metrics whose resolved position is within frame bounds (with the frame value
at that position), and every other snapshot entry keeps its previous value. -/
theorem c5_partial_frame_update (mi : List (String × Nat)) (met : List ℚ)
    (latest : List (String × ℚ)) (hmi : (dictKeys mi).Nodup) (l : String) :
    (∀ (idx : Nat) (h : idx < met.length), dictLookup mi l = some idx →
        dictLookup (on_new_met_data mi met latest) l = some (met.get ⟨idx, h⟩)) ∧
    ((∀ idx, dictLookup mi l = some idx → met.length ≤ idx) →
        dictLookup (on_new_met_data mi met latest) l = dictLookup latest l) := by
  have hknew := newMetricsOf_keys_nodup mi met
  have hnew := dictLookup_newMetricsOf mi met l hmi
  constructor
  · intro idx h hidx
    have hmi_ne : mi.isEmpty = false := by
      cases mi with
      | nil => simp [dictLookup] at hidx
      | cons p rest => rfl
    have hlook : dictLookup (newMetricsOf mi met) l = some (met.get ⟨idx, h⟩) := by
      rw [hnew, hidx]
      show met[idx]? = some (met.get ⟨idx, h⟩)
      simp [List.getElem?_eq_getElem h, List.get_eq_getElem]
    have hne : (newMetricsOf mi met).isEmpty = false := by
      cases hne2 : newMetricsOf mi met with
      | nil =>
          rw [hne2] at hlook
          exact absurd hlook (by simp [dictLookup])
      | cons q rest => rfl
    rw [on_new_met_data_eq_update latest hmi_ne hne, dictLookup_update,
      lastVal_eq_dictLookup hknew, hlook]
  · intro hbound
    cases hmie : mi.isEmpty with
    | true => rw [on_new_met_data_of_empty_index met latest hmie]
    | false =>
        have hnone : dictLookup (newMetricsOf mi met) l = none := by
          rw [hnew]
          cases hmil : dictLookup mi l with
          | none => rfl
          | some idx =>
              show met[idx]? = none
              exact List.getElem?_eq_none (hbound idx hmil)
        cases hne : (newMetricsOf mi met).isEmpty with
        | true => rw [on_new_met_data_of_empty_new latest hne]
        | false =>
            rw [on_new_met_data_eq_update latest hmie hne, dictLookup_update,
              lastVal_eq_dictLookup hknew, hnone]

/-- Witness for C5: index `{foc: 0, str: 5}`, one-element frame `[0.7]`. -/
theorem c5_partial_frame_update_witness :
    dictLookup (on_new_met_data [("foc", 0), ("str", 5)] [0.7] [("str", 0.2)]) "foc" =
        some 0.7 ∧
      dictLookup (on_new_met_data [("foc", 0), ("str", 5)] [0.7] [("str", 0.2)]) "str" =
        dictLookup [("str", 0.2)] "str" := by
  constructor
  · exact (c5_partial_frame_update [("foc", 0), ("str", 5)] [0.7] [("str", 0.2)]
      (by decide) "foc").1 0 (by decide) (by decide)
  · refine (c5_partial_frame_update [("foc", 0), ("str", 5)] [0.7] [("str", 0.2)]
      (by decide) "str").2 ?_
    intro idx hidx
    have h5 : dictLookup [("foc", (0 : Nat)), ("str", 5)] "str" = some 5 := by decide
    rw [h5] at hidx
    cases hidx
    decide

/-- **C6.** A value-frame received while the metric index is empty is
discarded: the snapshot (and the whole client state) is left unchanged. -/
theorem c6_empty_index_discards_frame (st : ClientState) (met : List ℚ)
    (h : st.metric_indices.isEmpty = true) : on_new_met_data_state st met = st := by
  cases st with
  | mk mi latest =>
      simp only [on_new_met_data_state]
      rw [on_new_met_data_of_empty_index met latest h]

/-- Witness for C6 with an empty index and a pending snapshot entry. -/
theorem c6_empty_index_discards_frame_witness :
    on_new_met_data_state ⟨[], [("eng", 0.5)]⟩ [0.1] = ⟨[], [("eng", 0.5)]⟩ :=
  c6_empty_index_discards_frame ⟨[], [("eng", 0.5)]⟩ [0.1] rfl

/-- **C7.** Label-set and value-frame events for a stream other than "met"
are silently ignored: neither the metric index nor the snapshot changes. -/
theorem c7_unknown_stream_ignored (st : ClientState) (streamName : String)
    (labels : List String) (values : List ℚ) (h : streamName ≠ "met") :
    on_new_data_labels st streamName labels = st ∧
      dispatch_value_frame st streamName values = st := by
  constructor
  · simp [on_new_data_labels, h]
  · simp [dispatch_value_frame, h]

/-- Witness for C7 at the stream name `"pow"`. -/
theorem c7_unknown_stream_ignored_witness :
    on_new_data_labels ⟨[("foc", 0)], [("foc", 0.5)]⟩ "pow" ["a", "b"] =
        ⟨[("foc", 0)], [("foc", 0.5)]⟩ ∧
      dispatch_value_frame ⟨[("foc", 0)], [("foc", 0.5)]⟩ "pow" [0.3] =
        ⟨[("foc", 0)], [("foc", 0.5)]⟩ :=
  c7_unknown_stream_ignored ⟨[("foc", 0)], [("foc", 0.5)]⟩ "pow" ["a", "b"] [0.3]
    (by decide)

/-- **C8.** `GET /metrics` before any data has arrived returns an empty JSON
object with HTTP 200, not an error; in general it returns the current
snapshot contents as the response body. -/
theorem c8_get_metrics_empty_ok (latest : List (String × ℚ)) :
    get_metrics [] = { status := 200, body := [] } ∧
      (get_metrics latest).status = 200 ∧ (get_metrics latest).body = latest :=
  ⟨rfl, rfl, rfl⟩

lemma writerProgOf_nil : writerProgOf [] = [] := rfl

lemma writerProgOf_cons (u : List (String × ℚ)) (ms : List (List (String × ℚ))) :
    writerProgOf (u :: ms) =
      MicroOp.acquire :: (u.map (fun p => MicroOp.write p.1 p.2) ++
        MicroOp.release :: writerProgOf ms) := by
  simp [writerProgOf, List.flatMap_cons]

lemma dictUpdate_append {α : Type} (d u1 u2 : List (String × α)) :
    dictUpdate d (u1 ++ u2) = dictUpdate (dictUpdate d u1) u2 :=
  List.foldl_append _ _ _ _

lemma dictUpdate_append_singleton {α : Type} (d u : List (String × α)) (p : String × α) :
    dictUpdate d (u ++ [p]) = dictInsert (dictUpdate d u) p.1 p.2 := by
  rw [dictUpdate_append]
  rfl

lemma applyMerges_take_succ (snap0 : List (String × ℚ)) {ms : List (List (String × ℚ))}
    {k : Nat} {u : List (String × ℚ)} (h : ms[k]? = some u) :
    applyMerges snap0 (ms.take (k + 1)) = dictUpdate (applyMerges snap0 (ms.take k)) u := by
  simp only [applyMerges]
  rw [List.take_succ, h, List.foldl_append]
  rfl

lemma sysInv_preserved {snap0 : List (String × ℚ)} {ms : List (List (String × ℚ))}
    {c c2 : SysConfig} (hinv : SysInv snap0 ms c) (hstep : LockStep c c2) :
    SysInv snap0 ms c2 := by
  obtain ⟨hw, hr⟩ := hinv
  cases hstep with
  | writerAcquire hlock hprog =>
      dsimp only [SysInv]
      rcases hw with ⟨k, hk, hprogEq, hsnap⟩ | ⟨hlock2, _⟩
      · rcases Nat.lt_or_ge k ms.length with hkl | hkl
        · rw [List.drop_eq_getElem_cons hkl, writerProgOf_cons] at hprogEq
          rw [hprogEq] at hprog
          injection hprog with h1 h2
          refine ⟨Or.inr ⟨rfl, k, [], ms[k], ?_, ?_, ?_⟩, ?_⟩
          · simp [List.getElem?_eq_getElem hkl]
          · exact h2.symm
          · exact hsnap
          · exact hr
        · rw [List.drop_eq_nil_of_le hkl, writerProgOf_nil] at hprogEq
          rw [hprogEq] at hprog
          simp at hprog
      · rw [hlock] at hlock2
        simp at hlock2
  | writerWrite hlock hprog =>
      dsimp only [SysInv]
      rcases hw with ⟨k0, hk0, hprogEq, hsnap⟩ | ⟨hlock2, k0, u1, u2, hms, hprogEq, hsnap⟩
      · rcases Nat.lt_or_ge k0 ms.length with hkl | hkl
        · rw [List.drop_eq_getElem_cons hkl, writerProgOf_cons] at hprogEq
          rw [hprogEq] at hprog
          simp at hprog
        · rw [List.drop_eq_nil_of_le hkl, writerProgOf_nil] at hprogEq
          rw [hprogEq] at hprog
          simp at hprog
      · cases u2 with
        | nil =>
            rw [List.map_nil, List.nil_append] at hprogEq
            rw [hprogEq] at hprog
            simp at hprog
        | cons p u2t =>
            rw [List.map_cons, List.cons_append] at hprogEq
            rw [hprogEq] at hprog
            injection hprog with h1 h2
            injection h1 with hp1 hp2
            refine ⟨Or.inr ⟨hlock, k0, u1 ++ [p], u2t, ?_, ?_, ?_⟩, ?_⟩
            · rw [List.append_cons] at hms
              exact hms
            · exact h2.symm
            · rw [dictUpdate_append_singleton, ← hsnap, hp1, hp2]
            · exact hr
  | writerRelease hlock hprog =>
      dsimp only [SysInv]
      rcases hw with ⟨k0, hk0, hprogEq, hsnap⟩ | ⟨hlock2, k0, u1, u2, hms, hprogEq, hsnap⟩
      · rcases Nat.lt_or_ge k0 ms.length with hkl | hkl
        · rw [List.drop_eq_getElem_cons hkl, writerProgOf_cons] at hprogEq
          rw [hprogEq] at hprog
          simp at hprog
        · rw [List.drop_eq_nil_of_le hkl, writerProgOf_nil] at hprogEq
          rw [hprogEq] at hprog
          simp at hprog
      · cases u2 with
        | cons p u2t =>
            rw [List.map_cons, List.cons_append] at hprogEq
            rw [hprogEq] at hprog
            simp at hprog
        | nil =>
            rw [List.map_nil, List.nil_append] at hprogEq
            rw [hprogEq] at hprog
            injection hprog with h1 h2
            rw [List.append_nil] at hms
            obtain ⟨hlt, _⟩ := List.getElem?_eq_some.mp hms
            refine ⟨Or.inl ⟨k0 + 1, Nat.succ_le_of_lt hlt, ?_, ?_⟩, ?_⟩
            · exact h2.symm
            · rw [applyMerges_take_succ snap0 hms]
              exact hsnap
            · exact hr
  | readerAcquire n hlock hn =>
      dsimp only [SysInv]
      obtain ⟨hlen, _⟩ := List.getElem?_eq_some.mp hn
      have hfirst : ∃ k, k ≤ ms.length ∧ c.prog = writerProgOf (ms.drop k) ∧
          c.snap = applyMerges snap0 (ms.take k) := by
        rcases hw with h | ⟨hlock2, _⟩
        · exact h
        · rw [hlock] at hlock2
          simp at hlock2
      refine ⟨Or.inl hfirst, ?_⟩
      intro m obs hm
      by_cases hmn : n = m
      · subst hmn
        rw [List.getElem?_set_eq_of_lt _ hlen] at hm
        rcases hm with hm | hm <;> simp at hm
      · rw [List.getElem?_set_ne hmn] at hm
        exact hr m obs hm
  | readerCopy n hlock hn =>
      dsimp only [SysInv]
      obtain ⟨hlen, _⟩ := List.getElem?_eq_some.mp hn
      have hfirst : ∃ k, k ≤ ms.length ∧ c.prog = writerProgOf (ms.drop k) ∧
          c.snap = applyMerges snap0 (ms.take k) := by
        rcases hw with h | ⟨hlock2, _⟩
        · exact h
        · rw [hlock] at hlock2
          simp at hlock2
      obtain ⟨k, hk, hprogEq, hsnap⟩ := hfirst
      refine ⟨Or.inl ⟨k, hk, hprogEq, hsnap⟩, ?_⟩
      intro m obs hm
      by_cases hmn : n = m
      · subst hmn
        rw [List.getElem?_set_eq_of_lt _ hlen] at hm
        rcases hm with hm | hm
        · have hobs : c.snap = obs := by simpa using hm
          exact ⟨k, hk, hobs ▸ hsnap⟩
        · simp at hm
      · rw [List.getElem?_set_ne hmn] at hm
        exact hr m obs hm
  | @readerRelease n obs0 hlock hn =>
      dsimp only [SysInv]
      obtain ⟨hlen, _⟩ := List.getElem?_eq_some.mp hn
      have hfirst : ∃ k, k ≤ ms.length ∧ c.prog = writerProgOf (ms.drop k) ∧
          c.snap = applyMerges snap0 (ms.take k) := by
        rcases hw with h | ⟨hlock2, _⟩
        · exact h
        · rw [hlock] at hlock2
          simp at hlock2
      refine ⟨Or.inl hfirst, ?_⟩
      intro m obs hm
      by_cases hmn : n = m
      · subst hmn
        rw [List.getElem?_set_eq_of_lt _ hlen] at hm
        rcases hm with hm | hm
        · simp at hm
        · have hobs : obs0 = obs := by simpa using hm
          exact hobs ▸ hr n obs0 (Or.inl hn)
      · rw [List.getElem?_set_ne hmn] at hm
        exact hr m obs hm

lemma sysInv_init (snap0 : List (String × ℚ)) (ms : List (List (String × ℚ)))
    (nReaders : Nat) : SysInv snap0 ms (initConfig snap0 ms nReaders) := by
  refine ⟨Or.inl ⟨0, Nat.zero_le _, rfl, rfl⟩, ?_⟩
  intro n obs h
  rcases h with h | h <;>
    · have h2 := List.eq_of_mem_replicate (List.getElem?_mem h)
      simp at h2

lemma sysInv_reachable {snap0 : List (String × ℚ)} {ms : List (List (String × ℚ))}
    {nReaders : Nat} {c : SysConfig}
    (h : Relation.ReflTransGen LockStep (initConfig snap0 ms nReaders) c) :
    SysInv snap0 ms c := by
  induction h with
  | refl => exact sysInv_init snap0 ms nReaders
  | tail hab hbc ih => exact sysInv_preserved ih hbc

/-- **C9.** In every interleaving of reader micro-steps with the writer's
sequence of merges (all guarded by the one lock, as in `app.py`), no read
observes a snapshot mixing values from two different merges: every snapshot
a reader copies equals the initial snapshot with some prefix of the merges
applied in their entirety. -/
theorem c9_merge_atomicity (snap0 : List (String × ℚ)) (ms : List (List (String × ℚ)))
    (nReaders : Nat) (c : SysConfig)
    (hreach : Relation.ReflTransGen LockStep (initConfig snap0 ms nReaders) c)
    (n : Nat) (obs : List (String × ℚ))
    (hobs : c.readers[n]? = some (ReaderPhase.copied obs) ∨
      c.readers[n]? = some (ReaderPhase.done obs)) :
    ∃ k, k ≤ ms.length ∧ obs = applyMerges snap0 (ms.take k) :=
  (sysInv_reachable hreach).2 n obs hobs

/-- Witness for C9: one writer merge of `{foc: 1}` followed by one reader's
acquire and copy. -/
theorem c9_merge_atomicity_witness :
    ∃ k, k ≤ ([[("foc", (1 : ℚ))]] : List (List (String × ℚ))).length ∧
      [("foc", (1 : ℚ))] =
        applyMerges [] (([[("foc", (1 : ℚ))]] : List (List (String × ℚ))).take k) :=
  c9_merge_atomicity [] [[("foc", 1)]] 1 _
    (Relation.ReflTransGen.tail
      (Relation.ReflTransGen.tail
        (Relation.ReflTransGen.tail
          (Relation.ReflTransGen.tail
            (Relation.ReflTransGen.tail Relation.ReflTransGen.refl
              (LockStep.writerAcquire rfl rfl))
            (LockStep.writerWrite rfl rfl))
          (LockStep.writerRelease rfl rfl))
        (LockStep.readerAcquire 0 rfl rfl))
      (LockStep.readerCopy 0 rfl rfl))
    0 [("foc", 1)] (Or.inl rfl)
